import Mathlib

/-!
Shallow embedding of the `caching` Go package (canonical iteration:
`NewCache` / `UpdateTime` / `Add` / `Update` / `get` / `Get` / `Remove` /
`clean`, plus `Obfuscator` from obfuscator.go).

Modelling choices:
* `time.Time` / `time.Duration` are `Int` nanosecond counts; `time.Now()`
  becomes an explicit `now : Int` argument and `time.Since t = now - t`.
* `sync.Map` becomes an association list `List (κ × CacheEntry α)`;
  `sync.Map` iteration order is unspecified in Go, the list order stands for
  one arbitrary iteration order.
* `json.Marshal` / `json.Unmarshal` are abstracted as a `Codec α`
  (`encode` / `decode` into byte lists); AES-GCM sealing/opening inside the
  `Obfuscator` is abstracted as an `Obfuscator` record of two fallible byte
  functions closed over the key and the per-call nonce.
* Go's `interface{}` slot `cacheEntry.value`, which holds either the raw
  caller value (transiently, inside `Update`) or the encoded `[]byte`
  payload, is the sum type `StoredVal`.  The failing single-form type
  assertion `entry.value.([]byte)` is a Go run-time panic, modelled by
  `GoResult.panicked`.
* `cacheMap` stores `*cacheEntry` pointers; `Update` mutates the pointed-to
  entry in place (`entry.value = params.Value`) before re-encoding, so that
  mutation is visible in the map even if the subsequent encode fails.  The
  model performs the same two-step store.
-/

namespace Caching

/-- Go: `const defaultExpiry = -1` (caching.go). -/
def defaultExpiry : Int := -1

/-- The `interface{}` value slot of a `cacheEntry`: either the encoded byte
payload or a raw (not yet encoded) caller value. -/
inductive StoredVal (α : Type) where
  | bytes : List Nat → StoredVal α
  | raw : α → StoredVal α
deriving DecidableEq, Repr

/-- Go struct `cacheEntry { value interface{}; insertionTime time.Time;
expiry time.Duration }`. -/
structure CacheEntry (α : Type) where
  value : StoredVal α
  insertionTime : Int
  expiry : Int
deriving DecidableEq, Repr

/-- Result of a Go call that can either return normally or panic
(e.g. a failing single-form type assertion). -/
inductive GoResult (α : Type) where
  | ok : α → GoResult α
  | panicked : String → GoResult α
deriving DecidableEq, Repr

/-- Abstraction of `json.Marshal` / `json.Unmarshal` for values of type `α`. -/
structure Codec (α : Type) where
  encode : α → Except String (List Nat)
  decode : List Nat → Except String α

/-- Abstraction of the AES-256-GCM obfuscation pair from obfuscator.go,
closed over the instance key and the fresh per-call nonce. -/
structure Obfuscator where
  obfuscate : List Nat → Except String (List Nat)
  deobfuscate : List Nat → Except String (List Nat)

/-- Go struct `Cache`: the `sync.Map`, the cache-wide default expiry, the
sweep interval and the optional obfuscator (the coarse `sync.RWMutex` has no
sequential content and is omitted). -/
structure Cache (κ α : Type) where
  cacheMap : List (κ × CacheEntry α)
  expiry : Int
  cleanInterval : Int
  obfuscator : Option Obfuscator

/-- Go struct `CreateCacheParams`. -/
structure CreateCacheParams where
  Expiry : Int
  CleanInterval : Int
  IsCacheObfuscated : Bool

/-- Go struct `AddCacheParams`. -/
structure AddCacheParams (κ α : Type) where
  Key : κ
  Value : α
  Expiry : Int

/-- Go struct `UpdateCacheParams`. -/
structure UpdateCacheParams (κ α : Type) where
  Key : κ
  Value : α

/-- Go struct `UpdateCacheTimeParams`. -/
structure UpdateCacheTimeParams where
  Expiry : Int
  CleanInterval : Int

variable {κ α : Type} [DecidableEq κ]

/-- `sync.Map.Load`. -/
def mapLoad (m : List (κ × CacheEntry α)) (k : κ) : Option (CacheEntry α) :=
  (m.find? fun p => decide (p.1 = k)).map Prod.snd

/-- `sync.Map.Store`: replace the binding for `k` (moving it to the front;
`sync.Map` fixes no iteration order) or insert a fresh one. -/
def mapStore (m : List (κ × CacheEntry α)) (k : κ) (e : CacheEntry α) :
    List (κ × CacheEntry α) :=
  (k, e) :: m.filter fun p => !decide (p.1 = k)

/-- `sync.Map.Delete`. -/
def mapDelete (m : List (κ × CacheEntry α)) (k : κ) : List (κ × CacheEntry α) :=
  m.filter fun p => !decide (p.1 = k)

/-- Go: `NewCache` (caching.go lines 275-295).  The clean goroutine is not
part of the sequential state; `NewObfuscator`'s key generation is abstracted
by the `obf` argument supplied when `IsCacheObfuscated` is set. -/
def NewCache (params : CreateCacheParams) (obf : Obfuscator) : Cache κ α :=
  { cacheMap := []
    cleanInterval := params.CleanInterval
    expiry := if params.Expiry > 0 then params.Expiry else defaultExpiry
    obfuscator := if params.IsCacheObfuscated then some obf else none }

/-- Go: `UpdateTime` (caching.go lines 298-301). -/
def UpdateTime (cache : Cache κ α) (params : UpdateCacheTimeParams) : Cache κ α :=
  { cache with expiry := params.Expiry, cleanInterval := params.CleanInterval }

/-- Go: `Remove` (caching.go lines 427-429). -/
def Remove (cache : Cache κ α) (key : κ) : Cache κ α :=
  { cache with cacheMap := mapDelete cache.cacheMap key }

/-- Go: `addInCache` (caching.go lines 342-359).  `entry.value` holds the raw
value `v` at the point of call (both callers have just set it), so
`json.Marshal(&value.value)` is `codec.encode v`.  On success the entry's
value slot is overwritten with the encoded (and, when an obfuscator is
configured, sealed) bytes and the entry is stored; on failure the store is
returned unchanged. -/
def addInCache (codec : Codec α) (obf : Option Obfuscator)
    (store : List (κ × CacheEntry α)) (key : κ) (entry : CacheEntry α) (v : α) :
    Except String Unit × List (κ × CacheEntry α) :=
  match codec.encode v with
  | .error e => (.error e, store)
  | .ok insertValue =>
    match obf with
    | none => (.ok (), mapStore store key { entry with value := .bytes insertValue })
    | some o =>
      match o.obfuscate insertValue with
      | .error e => (.error e, store)
      | .ok sealed => (.ok (), mapStore store key { entry with value := .bytes sealed })

/-- Go: `Add` (caching.go lines 363-376): builds a fresh entry with
`insertionTime = now` and effective expiry `params.Expiry` when positive,
else the cache-wide default, then hands it to `addInCache`. -/
def Add (codec : Codec α) (cache : Cache κ α) (params : AddCacheParams κ α)
    (now : Int) : Except String Unit × Cache κ α :=
  let entry : CacheEntry α :=
    { value := .raw params.Value
      expiry := if params.Expiry > 0 then params.Expiry else cache.expiry
      insertionTime := now }
  let r := addInCache codec cache.obfuscator cache.cacheMap params.Key entry params.Value
  (r.1, { cache with cacheMap := r.2 })

/-- Go: `Update` (caching.go lines 323-338).  The loaded `*cacheEntry` is
aliased by the map, so the in-place mutation `entry.value = params.Value` is
visible in the store before `addInCache` runs: when the re-encode or
re-obfuscate step fails, the store keeps the entry with the raw value. -/
def Update (codec : Codec α) (cache : Cache κ α) (params : UpdateCacheParams κ α) :
    Except String Unit × Cache κ α :=
  match mapLoad cache.cacheMap params.Key with
  | none => (.error "value doesn't exist in cache", cache)
  | some entry =>
    let mutated := { entry with value := StoredVal.raw params.Value }
    let store1 := mapStore cache.cacheMap params.Key mutated
    let r := addInCache codec cache.obfuscator store1 params.Key mutated params.Value
    (r.1, { cache with cacheMap := r.2 })

/-- Go: the private `get` (caching.go lines 378-411): load, liveness check
`entry.expiry <= defaultExpiry || time.Since(entry.insertionTime) <=
entry.expiry`, byte-slice extraction (a panicking type assertion),
deobfuscation with self-healing removal, and lazy eviction of an expired
entry.  Returns the `(*GetCacheResponse, bool)` pair as `Option (List Nat)`. -/
def get (cache : Cache κ α) (key : κ) (now : Int) :
    GoResult (Option (List Nat)) × Cache κ α :=
  match mapLoad cache.cacheMap key with
  | none => (.ok none, cache)
  | some entry =>
    if entry.expiry ≤ defaultExpiry ∨ now - entry.insertionTime ≤ entry.expiry then
      match entry.value with
      | .raw _ => (.panicked "interface conversion: interface is not a byte slice", cache)
      | .bytes insertedValue =>
        match cache.obfuscator with
        | none => (.ok (some insertedValue), cache)
        | some o =>
          match o.deobfuscate insertedValue with
          | .error _ => (.ok none, Remove cache key)
          | .ok plain => (.ok (some plain), cache)
    else
      (.ok none, Remove cache key)

/-- Go: the public `Get` (caching.go lines 413-424): wraps the private `get`
and `json.Unmarshal`s the payload into the caller's target. -/
def Get (codec : Codec α) (cache : Cache κ α) (key : κ) (now : Int) :
    GoResult (Except String α) × Cache κ α :=
  match get cache key now with
  | (.panicked m, c) => (.panicked m, c)
  | (.ok none, c) => (.ok (.error "key not found in the cache"), c)
  | (.ok (some payload), c) =>
    match codec.decode payload with
    | .error e => (.ok (.error e), c)
    | .ok v => (.ok (.ok v), c)

/-- The sweeper's per-entry eviction test (caching.go line 440):
`entry.expiry != defaultExpiry && time.Since(entry.insertionTime) >
entry.expiry`. -/
def evictCond (now : Int) (e : CacheEntry α) : Bool :=
  decide (e.expiry ≠ defaultExpiry) && decide (now - e.insertionTime > e.expiry)

/-- One sweep cycle of `clean` (caching.go lines 432-448): `sync.Map.Range`
with a callback that removes an entry meeting `evictCond` and returns `true`,
and returns `false` otherwise — and `Range` stops iterating as soon as the
callback returns `false`, so the scan halts at the first entry it does not
evict. -/
def cleanRange (now : Int) : List (κ × CacheEntry α) → List (κ × CacheEntry α)
  | [] => []
  | (k, e) :: rest =>
    if evictCond now e then cleanRange now rest
    else (k, e) :: rest

/-- One cycle of the clean goroutine on the cache state. -/
def cleanCycle (now : Int) (cache : Cache κ α) : Cache κ α :=
  { cache with cacheMap := cleanRange now cache.cacheMap }

/-! Obfuscator construction and deobfuscation, from obfuscator.go. -/

/-- Go: `const keyBytes = 32` (obfuscator.go). -/
def keyBytes : Nat := 32

/-- The standard GCM nonce size used by `cipher.NewGCM` (12 bytes). -/
def nonceSize : Nat := 12

/-- Go `crypto/aes.NewCipher`: fails exactly when the key is not 16, 24 or
32 bytes long. -/
def aesNewCipher (key : List Nat) : Except String Unit :=
  if key.length = 16 ∨ key.length = 24 ∨ key.length = 32 then .ok ()
  else .error "crypto/aes: invalid key size"

/-- Go: `NewObfuscator` (obfuscator.go lines 20-29).  `crypto/rand.Read`
either fills the 32-byte key buffer or fails; on failure the code calls
`panic(err)`.  Returns the generated key on success. -/
def NewObfuscator (randRead : Except String (List Nat)) : GoResult (List Nat) :=
  match randRead with
  | .error e => .panicked e
  | .ok buf => .ok buf

/-- Go: `Deobfuscate` (obfuscator.go lines 56-72), parameterised by the
AES-GCM `gcm.Open` primitive (nonce → sealed payload → plaintext or
authentication failure): initialise the cipher from the key, reject inputs
shorter than the nonce size as malformed, otherwise split off the nonce
prefix and open the remainder. -/
def Deobfuscate (gcmOpen : List Nat → List Nat → Except String (List Nat))
    (key ciphertext : List Nat) : Except String (List Nat) :=
  match aesNewCipher key with
  | .error e => .error e
  | .ok () =>
    if ciphertext.length < nonceSize then .error "malformed ciphertext"
    else gcmOpen (ciphertext.take nonceSize) (ciphertext.drop nonceSize)

/-! Basic lemmas about the association-list store. -/

theorem mapLoad_mapStore_self (m : List (κ × CacheEntry α)) (k : κ) (e : CacheEntry α) :
    mapLoad (mapStore m k e) k = some e := by
  simp [mapLoad, mapStore, List.find?]

theorem mapLoad_mapStore_other (m : List (κ × CacheEntry α)) (k k' : κ) (e : CacheEntry α)
    (h : k' ≠ k) : mapLoad (mapStore m k e) k' = mapLoad m k' := by
  simp only [mapLoad, mapStore, List.find?]
  have : (decide ((k, e).1 = k')) = false := by simp [Ne.symm h]
  simp only [this]
  induction m with
  | nil => simp
  | cons p t ih =>
    by_cases hp : p.1 = k
    · have h1 : (decide (p.1 = k)) = true := by simpa using hp
      have h2 : (decide (p.1 = k')) = false := by
        simp only [decide_eq_false_iff_not]
        intro hc
        exact h (hc ▸ hp.symm ▸ rfl)
      simp only [List.filter_cons, h1, Bool.not_true]
      simpa [List.find?, h2] using ih
    · have h1 : (decide (p.1 = k)) = false := by simpa using hp
      simp only [List.filter_cons, h1, Bool.not_false]
      by_cases hq : p.1 = k'
      · have h2 : (decide (p.1 = k')) = true := by simpa using hq
        simp [List.find?, h2]
      · have h2 : (decide (p.1 = k')) = false := by simpa using hq
        simpa [List.find?, h2] using ih

theorem mapLoad_mapDelete_self (m : List (κ × CacheEntry α)) (k : κ) :
    mapLoad (mapDelete m k) k = none := by
  unfold mapLoad mapDelete
  rw [List.find?_eq_none.mpr]
  · rfl
  · intro x hx
    rcases List.mem_filter.mp hx with ⟨-, hkey⟩
    simpa using hkey

theorem get_found_of_neverExpiry (cache : Cache κ α) (k : κ) (entry : CacheEntry α)
    (b : List Nat) (hl : mapLoad cache.cacheMap k = some entry)
    (hv : entry.value = .bytes b) (hobf : cache.obfuscator = none)
    (hneg : entry.expiry ≤ defaultExpiry) (t : Int) :
    (get cache k t).1 = .ok (some b) := by
  have h1 : get cache k t = (.ok (some b), cache) := by
    simp only [get, hl, if_pos (Or.inl hneg), hv, hobf]
  rw [h1]

theorem addInCache_ok (codec : Codec α) (obf : Option Obfuscator)
    (store : List (κ × CacheEntry α)) (k : κ) (entry : CacheEntry α) (v : α)
    (res : List (κ × CacheEntry α))
    (h : addInCache codec obf store k entry v = (.ok (), res)) :
    ∃ b, mapLoad res k = some { entry with value := .bytes b } := by
  unfold addInCache at h
  split at h
  · simp at h
  · rename_i b heq
    split at h
    · have hres : mapStore store k { entry with value := .bytes b } = res := by
        simpa using h
      exact ⟨b, by rw [← hres]; exact mapLoad_mapStore_self _ _ _⟩
    · rename_i o
      split at h
      · simp at h
      · rename_i s heq2
        have hres : mapStore store k { entry with value := .bytes s } = res := by
          simpa using h
        exact ⟨s, by rw [← hres]; exact mapLoad_mapStore_self _ _ _⟩

/-! Concrete instances used by the witness theorems. -/

/-- A codec for `Nat` values on which encoding always succeeds and decoding
inverts it (stands for a value type `json` handles without error). -/
def natCodec : Codec Nat :=
  { encode := fun n => .ok [n]
    decode := fun b => match b with | [n] => .ok n | _ => .error "bad payload" }

/-- A codec for `Option Nat` on which `none` is unserialisable, modelling a
value `json.Marshal` rejects (such as a NaN float or a channel). -/
def optCodec : Codec (Option Nat) :=
  { encode := fun v => match v with
      | some n => .ok [n]
      | none => .error "json: unsupported value"
    decode := fun b => match b with | [n] => .ok (some n) | _ => .error "bad payload" }

/-- A concrete obfuscator whose sealing prepends a byte and whose opening
strips it: satisfies the AEAD round-trip contract on every payload. -/
def tagObf : Obfuscator :=
  { obfuscate := fun b => .ok (7 :: b)
    deobfuscate := fun b => match b with | 7 :: rest => .ok rest | _ => .error "authentication failure" }

/-- A non-obfuscated cache holding one pre-existing entry under key 1
(payload bytes `[5]`, never-expiring). -/
def cacheC6 : Cache Nat (Option Nat) :=
  { cacheMap := [(1, ⟨StoredVal.bytes [5], 0, -1⟩)], expiry := -1, cleanInterval := 10,
    obfuscator := none }

/-- A non-obfuscated cache holding one entry under key 0 inserted at time 0
with effective expiry 1. -/
def cacheC3 : Cache Nat Nat :=
  { cacheMap := [(0, ⟨StoredVal.bytes [9], 0, 1⟩)], expiry := -1, cleanInterval := 100,
    obfuscator := none }

/-- A freshly constructed non-obfuscated cache with default expiry 5. -/
def cacheC4 : Cache Nat Nat := NewCache ⟨5, 1, false⟩ tagObf

/-- A freshly constructed obfuscated cache (obfuscator `tagObf`) with
default expiry 5. -/
def cacheC1 : Cache Nat Nat := NewCache ⟨5, 1, true⟩ tagObf

/-- A non-obfuscated cache holding one entry with strictly negative
effective expiry (−5), inserted at time 0. -/
def cacheC2 : Cache Nat Nat :=
  { cacheMap := [(0, ⟨StoredVal.bytes [3], 0, -5⟩)], expiry := -1, cleanInterval := 100,
    obfuscator := none }

/-! The claims. -/

/-- C7: `UpdateTime` mutates only the cache-wide default expiry and the sweep
cadence for future use; the store — and hence every previously inserted
entry's effective expiry and insertion timestamp — is unchanged, whatever the
new default is. -/
theorem updateTime_non_retroactive (cache : Cache κ α) (params : UpdateCacheTimeParams) :
    (∀ k, mapLoad (UpdateTime cache params).cacheMap k = mapLoad cache.cacheMap k) ∧
    (UpdateTime cache params).expiry = params.Expiry ∧
    (UpdateTime cache params).cleanInterval = params.CleanInterval ∧
    (UpdateTime cache params).obfuscator = cache.obfuscator :=
  ⟨fun _ => rfl, rfl, rfl, rfl⟩

/-- C6: when `Add` fails (serialization error from the encode step, or crypto
error from the obfuscation step), the store is exactly what it was before the
call — nothing is stored and any pre-existing entry under the key survives. -/
theorem add_atomic_on_failure (codec : Codec α) (cache : Cache κ α)
    (params : AddCacheParams κ α) (now : Int) (e : String)
    (h : (Add codec cache params now).1 = .error e) :
    (Add codec cache params now).2.cacheMap = cache.cacheMap ∧
    ∀ k, mapLoad (Add codec cache params now).2.cacheMap k = mapLoad cache.cacheMap k := by
  have hmap : (Add codec cache params now).2.cacheMap = cache.cacheMap := by
    simp only [Add, addInCache] at h ⊢
    cases hc : codec.encode params.Value with
    | error e' => simp [hc]
    | ok b =>
      cases ho : cache.obfuscator with
      | none => simp [hc, ho] at h
      | some o =>
        cases hb : o.obfuscate b with
        | error e' => simp [hc, ho, hb]
        | ok s => simp [hc, ho, hb] at h
  exact ⟨hmap, fun k => by rw [hmap]⟩

/-- C6 witness: adding an unserialisable value over an existing entry fails
and leaves the pre-existing entry in place. -/
theorem add_atomic_on_failure_witness :
    (Add optCodec cacheC6 ⟨1, none, 0⟩ 0).1 = Except.error "json: unsupported value" ∧
    (Add optCodec cacheC6 ⟨1, none, 0⟩ 0).2.cacheMap = cacheC6.cacheMap :=
  ⟨rfl, (add_atomic_on_failure optCodec cacheC6 ⟨1, none, 0⟩ 0 "json: unsupported value" rfl).1⟩

/-- C3: a `get` on a key whose entry is expired at call time reports
not-found and removes the entry from the store as a side effect; `get` never
consults the sweeper (`cleanRange` does not occur in it), so this holds
whatever the sweep interval is. -/
theorem get_lazy_eviction (cache : Cache κ α) (k : κ) (entry : CacheEntry α) (now : Int)
    (hl : mapLoad cache.cacheMap k = some entry)
    (hexp : ¬(entry.expiry ≤ defaultExpiry ∨ now - entry.insertionTime ≤ entry.expiry)) :
    (get cache k now).1 = .ok none ∧
    mapLoad (get cache k now).2.cacheMap k = none := by
  have h1 : get cache k now = (.ok none, Remove cache k) := by
    simp only [get, hl, if_neg hexp]
  rw [h1]
  exact ⟨rfl, mapLoad_mapDelete_self cache.cacheMap k⟩

/-- C3 witness: an entry with expiry 1ns read 2ns after insertion is gone. -/
theorem get_lazy_eviction_witness :
    (get cacheC3 0 2).1 = GoResult.ok none ∧
    mapLoad (get cacheC3 0 2).2.cacheMap 0 = none :=
  get_lazy_eviction cacheC3 0 ⟨StoredVal.bytes [9], 0, 1⟩ 2 rfl (by decide)

/-- C9: the code does not return a `CryptoInitError` when the source of
randomness fails — `NewObfuscator` panics, an unrecoverable process abort,
contradicting the spec's required fallible construction. -/
theorem newObfuscator_panics_on_rand_failure :
    NewObfuscator (.error "rand: entropy source failure")
      = .panicked "rand: entropy source failure" := rfl

/-- C8: `Deobfuscate` rejects every input shorter than the AEAD nonce size
with the malformed-ciphertext error, and any payload it does return came from
a successful `gcm.Open` — tampered or key-mismatched input is never silently
accepted. -/
theorem deobfuscate_malformed (gcmOpen : List Nat → List Nat → Except String (List Nat))
    (key ct : List Nat) (hk : key.length = 32) :
    (ct.length < nonceSize → Deobfuscate gcmOpen key ct = .error "malformed ciphertext") ∧
    (∀ p, Deobfuscate gcmOpen key ct = .ok p →
      gcmOpen (ct.take nonceSize) (ct.drop nonceSize) = .ok p) := by
  constructor
  · intro h
    simp [Deobfuscate, aesNewCipher, hk, h]
  · intro p hp
    simp only [Deobfuscate, aesNewCipher, hk] at hp
    by_cases h : ct.length < nonceSize
    · simp [h] at hp
    · simpa [h] using hp

/-- C4: after a successful `Add(k, v1, expiry)` followed by a successful
`Update(k, v2)`, the stored entry keeps the original insertion timestamp and
the originally resolved effective expiry (override when positive, else the
cache-wide default at `Add` time); only the payload slot is re-encoded. -/
theorem update_preserves_ttl (codec : Codec α) (cache : Cache κ α) (k : κ) (v1 v2 : α)
    (pexp t0 : Int) (c1 c2 : Cache κ α)
    (hAdd : Add codec cache ⟨k, v1, pexp⟩ t0 = (.ok (), c1))
    (hUpd : Update codec c1 ⟨k, v2⟩ = (.ok (), c2)) :
    ∃ e2, mapLoad c2.cacheMap k = some e2 ∧
      e2.insertionTime = t0 ∧
      e2.expiry = (if pexp > 0 then pexp else cache.expiry) ∧
      ∃ b2, e2.value = .bytes b2 := by
  -- unpack the Add
  unfold Add at hAdd
  have hc1 : c1 = { cache with
      cacheMap := (addInCache codec cache.obfuscator cache.cacheMap k
        ⟨.raw v1, t0, if pexp > 0 then pexp else cache.expiry⟩ v1).2 } := by
    have := congrArg Prod.snd hAdd
    simpa using this.symm
  have hAdd1 : (addInCache codec cache.obfuscator cache.cacheMap k
      ⟨.raw v1, t0, if pexp > 0 then pexp else cache.expiry⟩ v1).1 = .ok () := by
    have := congrArg Prod.fst hAdd
    simpa using this
  obtain ⟨b1, hload1⟩ := addInCache_ok codec cache.obfuscator cache.cacheMap k
    ⟨.raw v1, t0, if pexp > 0 then pexp else cache.expiry⟩ v1 _
    (by rw [← hAdd1])
  have hload1' : mapLoad c1.cacheMap k =
      some ⟨.bytes b1, t0, if pexp > 0 then pexp else cache.expiry⟩ := by
    rw [hc1]; exact hload1
  -- unpack the Update
  unfold Update at hUpd
  rw [hload1'] at hUpd
  have hc2 : c2 = { c1 with
      cacheMap := (addInCache codec c1.obfuscator
        (mapStore c1.cacheMap k ⟨.raw v2, t0, if pexp > 0 then pexp else cache.expiry⟩) k
        ⟨.raw v2, t0, if pexp > 0 then pexp else cache.expiry⟩ v2).2 } := by
    have := congrArg Prod.snd hUpd
    simpa using this.symm
  have hUpd1 : (addInCache codec c1.obfuscator
      (mapStore c1.cacheMap k ⟨.raw v2, t0, if pexp > 0 then pexp else cache.expiry⟩) k
      ⟨.raw v2, t0, if pexp > 0 then pexp else cache.expiry⟩ v2).1 = .ok () := by
    have := congrArg Prod.fst hUpd
    simpa using this
  obtain ⟨b2, hload2⟩ := addInCache_ok codec c1.obfuscator
    (mapStore c1.cacheMap k ⟨.raw v2, t0, if pexp > 0 then pexp else cache.expiry⟩) k
    ⟨.raw v2, t0, if pexp > 0 then pexp else cache.expiry⟩ v2 _
    (by rw [← hUpd1])
  refine ⟨⟨.bytes b2, t0, if pexp > 0 then pexp else cache.expiry⟩, ?_, rfl, rfl, b2, rfl⟩
  rw [hc2]
  exact hload2

/-- C4 witness: add value 1 under key 0 at time 0 with override expiry 7,
update it to value 2; the entry still has insertion time 0 and expiry 7. -/
theorem update_preserves_ttl_witness :
    (Add natCodec cacheC4 ⟨0, 1, 7⟩ 0).1 = .ok () ∧
    (Update natCodec (Add natCodec cacheC4 ⟨0, 1, 7⟩ 0).2 ⟨0, 2⟩).1 = .ok () ∧
    ∃ e2, mapLoad (Update natCodec (Add natCodec cacheC4 ⟨0, 1, 7⟩ 0).2 ⟨0, 2⟩).2.cacheMap 0
        = some e2 ∧
      e2.insertionTime = 0 ∧ e2.expiry = 7 ∧ ∃ b2, e2.value = .bytes b2 := by
  refine ⟨rfl, rfl, ?_⟩
  have h := update_preserves_ttl natCodec cacheC4 0 1 2 7 0
    (Add natCodec cacheC4 ⟨0, 1, 7⟩ 0).2
    (Update natCodec (Add natCodec cacheC4 ⟨0, 1, 7⟩ 0).2 ⟨0, 2⟩).2 rfl rfl
  simpa using h

/-- C8 witness: a 3-byte input (shorter than the 12-byte nonce) is rejected
as malformed even by a `gcm.Open` that accepts everything. -/
theorem deobfuscate_malformed_witness :
    Deobfuscate (fun _ c => .ok c) (List.replicate 32 0) [1, 2, 3]
      = .error "malformed ciphertext" :=
  (deobfuscate_malformed (fun _ c => .ok c) (List.replicate 32 0) [1, 2, 3]
    (by simp)).1 (by decide)

/-- C2 counterexample: after `UpdateTime` sets the cache-wide default expiry
to 0, a freshly added entry gets effective expiry 0 — which the claim calls
"never expires" — yet a `get` 1ns after insertion reports not-found and
evicts it. -/
theorem get_liveness_counterexample :
    (Add natCodec (UpdateTime (NewCache ⟨5, 1, false⟩ tagObf) ⟨0, 1⟩) ⟨0, 42, 0⟩ 0).1
      = .ok () ∧
    (mapLoad (Add natCodec (UpdateTime (NewCache ⟨5, 1, false⟩ tagObf) ⟨0, 1⟩)
        ⟨0, 42, 0⟩ 0).2.cacheMap 0).map CacheEntry.expiry = some 0 ∧
    (get (Add natCodec (UpdateTime (NewCache ⟨5, 1, false⟩ tagObf) ⟨0, 1⟩)
        ⟨0, 42, 0⟩ 0).2 0 1).1 = .ok none ∧
    mapLoad (get (Add natCodec (UpdateTime (NewCache ⟨5, 1, false⟩ tagObf) ⟨0, 1⟩)
        ⟨0, 42, 0⟩ 0).2 0 1).2.cacheMap 0 = none :=
  ⟨rfl, rfl, rfl, rfl⟩

/-- C2 amended: `get` treats a stored entry as live exactly when its
effective expiry is ≤ −1 — the code's "never expires" test, satisfied by
strictly negative expiries only — or the elapsed time is at most the
effective expiry.  An entry with strictly negative effective expiry is found
no matter how much time has passed; an entry whose effective expiry is
exactly 0 (possible once `UpdateTime` sets the default to 0) is live only
while no time has elapsed. -/
theorem get_liveness (cache : Cache κ α) (k : κ) (entry : CacheEntry α) (b : List Nat)
    (hl : mapLoad cache.cacheMap k = some entry)
    (hv : entry.value = .bytes b)
    (hobf : cache.obfuscator = none) :
    (∀ now : Int, ((get cache k now).1 = .ok (some b) ↔
      (entry.expiry ≤ defaultExpiry ∨ now - entry.insertionTime ≤ entry.expiry))) ∧
    (entry.expiry ≤ -1 → ∀ t : Int, (get cache k t).1 = .ok (some b)) := by
  have hmain : ∀ now : Int, ((get cache k now).1 = .ok (some b) ↔
      (entry.expiry ≤ defaultExpiry ∨ now - entry.insertionTime ≤ entry.expiry)) := by
    intro now
    by_cases hc : entry.expiry ≤ defaultExpiry ∨ now - entry.insertionTime ≤ entry.expiry
    · have h1 : get cache k now = (.ok (some b), cache) := by
        simp only [get, hl, if_pos hc, hv, hobf]
      rw [h1]
      exact iff_of_true rfl hc
    · have h1 : get cache k now = (.ok none, Remove cache k) := by
        simp only [get, hl, if_neg hc]
      rw [h1]
      exact iff_of_false (by simp) hc
  refine ⟨hmain, fun hneg t => (hmain t).mpr (Or.inl hneg)⟩

/-- C2 witness: an entry with effective expiry −5 is still found one million
nanoseconds after insertion. -/
theorem get_liveness_witness :
    (get cacheC2 0 1000000).1 = GoResult.ok (some [3]) ∧
    ((get cacheC2 0 0).1 = GoResult.ok (some [3]) ↔
      ((-5 : Int) ≤ defaultExpiry ∨ (0 : Int) - 0 ≤ -5)) :=
  ⟨(get_liveness cacheC2 0 ⟨StoredVal.bytes [3], 0, -5⟩ [3] (by decide) rfl rfl).2
      (by norm_num) 1000000,
    (get_liveness cacheC2 0 ⟨StoredVal.bytes [3], 0, -5⟩ [3] (by decide) rfl rfl).1 0⟩

/-- C5 counterexample: an entry whose effective expiry is −2 — "never
expires" both by the claim's ≤ 0 reading and by `get`'s own ≤ −1 test, as the
third conjunct shows — is nonetheless evicted by the very first sweep cycle,
because the sweeper tests `expiry != -1` rather than the `expiry <= -1` test
`get` uses. -/
theorem clean_never_expiry_counterexample :
    (Add natCodec (UpdateTime (NewCache ⟨5, 1, false⟩ tagObf) ⟨-2, 1⟩) ⟨0, 42, 0⟩ 0).1
      = .ok () ∧
    (mapLoad (Add natCodec (UpdateTime (NewCache ⟨5, 1, false⟩ tagObf) ⟨-2, 1⟩)
        ⟨0, 42, 0⟩ 0).2.cacheMap 0).map CacheEntry.expiry = some (-2) ∧
    (∀ t : Int, (get (Add natCodec (UpdateTime (NewCache ⟨5, 1, false⟩ tagObf) ⟨-2, 1⟩)
        ⟨0, 42, 0⟩ 0).2 0 t).1 = .ok (some [42])) ∧
    mapLoad (cleanCycle 0 (Add natCodec (UpdateTime (NewCache ⟨5, 1, false⟩ tagObf) ⟨-2, 1⟩)
        ⟨0, 42, 0⟩ 0).2).cacheMap 0 = none := by
  refine ⟨rfl, rfl, ?_, rfl⟩
  intro t
  exact get_found_of_neverExpiry
    (Add natCodec (UpdateTime (NewCache ⟨5, 1, false⟩ tagObf) ⟨-2, 1⟩) ⟨0, 42, 0⟩ 0).2
    0 ⟨StoredVal.bytes [42], 0, -2⟩ [42] (by decide) rfl rfl (by norm_num [defaultExpiry]) t

omit [DecidableEq κ] in
/-- C5 amended: a sweep cycle examines entries in iteration order, evicting
an examined entry exactly when its effective expiry is not the exact −1
sentinel and its age strictly exceeds that expiry, and it stops the scan at
the first examined entry it does not evict (the `Range` callback returns
`false` there), so the surviving store is the input minus its maximal prefix
of evictable entries; an entry whose effective expiry is exactly −1 is never
removed by the sweeper. -/
theorem clean_sweep_behavior (now : Int) (l : List (κ × CacheEntry α)) :
    cleanRange now l = l.dropWhile (fun p => evictCond now p.2) ∧
    ∀ k e, (k, e) ∈ l → e.expiry = defaultExpiry → (k, e) ∈ cleanRange now l := by
  induction l with
  | nil => exact ⟨rfl, fun k e h _ => absurd h (List.not_mem_nil _)⟩
  | cons p t ih =>
    obtain ⟨k0, e0⟩ := p
    by_cases hev : evictCond now e0
    · constructor
      · rw [List.dropWhile_cons]
        simp only [hev, if_true]
        simpa [cleanRange, hev] using ih.1
      · intro k e hmem hexp
        rcases List.mem_cons.mp hmem with hhd | htl
        · exfalso
          have : e0.expiry ≠ defaultExpiry := by
            have := (Bool.and_eq_true _ _).mp hev
            simpa using this.1
          have hke : e = e0 := congrArg Prod.snd hhd
          exact this (hke ▸ hexp)
        · have := ih.2 k e htl hexp
          simpa [cleanRange, hev] using this
    · constructor
      · rw [List.dropWhile_cons]
        simp only [hev, if_false]
        simp [cleanRange, hev]
      · intro k e hmem _
        simpa [cleanRange, hev] using hmem

/-- C5 amended-claim witness: on a two-entry store whose first entry is
evictable at time 10 and whose second never expires (sentinel −1), the cycle
equals the dropWhile form and the sentinel entry survives. -/
theorem clean_sweep_behavior_witness :
    cleanRange 10 [((0 : Nat), (⟨StoredVal.bytes [1], 0, 5⟩ : CacheEntry Nat)),
        (1, ⟨StoredVal.bytes [2], 0, -1⟩)]
      = [((0 : Nat), (⟨StoredVal.bytes [1], 0, 5⟩ : CacheEntry Nat)),
        (1, ⟨StoredVal.bytes [2], 0, -1⟩)].dropWhile (fun p => evictCond 10 p.2) ∧
    ((1 : Nat), (⟨StoredVal.bytes [2], 0, -1⟩ : CacheEntry Nat)) ∈
      cleanRange 10 [((0 : Nat), (⟨StoredVal.bytes [1], 0, 5⟩ : CacheEntry Nat)),
        (1, ⟨StoredVal.bytes [2], 0, -1⟩)] :=
  ⟨(clean_sweep_behavior 10 _).1,
    (clean_sweep_behavior 10 _).2 1 ⟨StoredVal.bytes [2], 0, -1⟩ (by simp) rfl⟩

/-- C1: for any cache (obfuscation enabled or disabled), if the codec
round-trips the value, the obfuscator (when configured) round-trips the
encoded payload, and the read happens while the entry is live (its effective
expiry means never, or the elapsed time is within it), then `Add` succeeds
and `Get` on the same key returns a value structurally equal to the one
added. -/
theorem add_get_round_trip (codec : Codec α) (cache : Cache κ α) (k : κ) (v : α)
    (pexp t0 t1 : Int) (b : List Nat)
    (henc : codec.encode v = .ok b)
    (hdec : codec.decode b = .ok v)
    (hobf : ∀ o, cache.obfuscator = some o →
      ∃ s, o.obfuscate b = .ok s ∧ o.deobfuscate s = .ok b)
    (hlive : (if pexp > 0 then pexp else cache.expiry) ≤ defaultExpiry ∨
      t1 - t0 ≤ (if pexp > 0 then pexp else cache.expiry)) :
    (Add codec cache ⟨k, v, pexp⟩ t0).1 = .ok () ∧
    (Get codec (Add codec cache ⟨k, v, pexp⟩ t0).2 k t1).1 = .ok (.ok v) := by
  cases ho : cache.obfuscator with
  | none =>
    have hAdd : Add codec cache ⟨k, v, pexp⟩ t0 =
        (.ok (), { cache with cacheMap := (mapStore cache.cacheMap k
          ⟨.bytes b, t0, if pexp > 0 then pexp else cache.expiry⟩) }) := by
      simp only [Add, addInCache, henc, ho]
    refine ⟨by rw [hAdd], ?_⟩
    rw [hAdd]
    have hload := mapLoad_mapStore_self cache.cacheMap k
      (⟨.bytes b, t0, if pexp > 0 then pexp else cache.expiry⟩ : CacheEntry α)
    simp only [Get, get, hload, if_pos hlive, ho, hdec]
  | some o =>
    obtain ⟨s, hs, hds⟩ := hobf o ho
    have hAdd : Add codec cache ⟨k, v, pexp⟩ t0 =
        (.ok (), { cache with cacheMap := (mapStore cache.cacheMap k
          ⟨.bytes s, t0, if pexp > 0 then pexp else cache.expiry⟩) }) := by
      simp only [Add, addInCache, henc, ho, hs]
    refine ⟨by rw [hAdd], ?_⟩
    rw [hAdd]
    have hload := mapLoad_mapStore_self cache.cacheMap k
      (⟨.bytes s, t0, if pexp > 0 then pexp else cache.expiry⟩ : CacheEntry α)
    simp only [Get, get, hload, if_pos hlive, ho, hds, hdec]

/-- C1 witness: in an obfuscated cache with default expiry 5, value 42 added
under key 0 at time 0 is read back as 42 at time 3. -/
theorem add_get_round_trip_witness :
    (Add natCodec cacheC1 ⟨0, 42, 0⟩ 0).1 = .ok () ∧
    (Get natCodec (Add natCodec cacheC1 ⟨0, 42, 0⟩ 0).2 0 3).1 = .ok (.ok 42) :=
  add_get_round_trip natCodec cacheC1 0 42 0 0 3 [42] rfl rfl
    (fun o ho => by
      have h : tagObf = o := Option.some.inj ho
      subst h
      exact ⟨[7, 42], rfl, rfl⟩)
    (by decide)

/-- C10 (code bug): `Update` mutates the map-shared entry in place before
re-encoding, so when the encode step fails the live entry is left holding the
raw un-encoded value rather than a byte payload, and the next `get` on that
key panics on the `entry.value.([]byte)` type assertion instead of reading
encoded bytes — the implicit payload invariant is violated in a reachable
state. -/
theorem update_failure_poisons_entry :
    (Add optCodec (NewCache ⟨5, 1, false⟩ tagObf) ⟨0, some 5, 0⟩ 0).1 = .ok () ∧
    (Update optCodec (Add optCodec (NewCache ⟨5, 1, false⟩ tagObf) ⟨0, some 5, 0⟩ 0).2
        ⟨0, none⟩).1 = .error "json: unsupported value" ∧
    (mapLoad (Update optCodec (Add optCodec (NewCache ⟨5, 1, false⟩ tagObf) ⟨0, some 5, 0⟩ 0).2
        ⟨0, none⟩).2.cacheMap 0).map CacheEntry.value = some (.raw none) ∧
    (get (Update optCodec (Add optCodec (NewCache ⟨5, 1, false⟩ tagObf) ⟨0, some 5, 0⟩ 0).2
        ⟨0, none⟩).2 0 0).1
      = .panicked "interface conversion: interface is not a byte slice" :=
  ⟨rfl, rfl, rfl, rfl⟩

end Caching
